import Mathlib

/-!
Verification of the comparison and masking engine of the pixelmatch-based
visual-regression helper (source: `src/index.js`).

The definitions below are a shallow embedding of the JavaScript source:
JS integers are `Nat`/`Int`, JS floating-point values on the difference
path are modelled as exact rationals extended with the non-finite values
`NaN`/`Infinity` (`JsNum`), decoded RGBA buffers are total functions from
byte index to byte value, strings are `List Char`, and fallible code
returns `Except`.  External collaborators (filesystem, the pixelmatch
primitive, the capture driver) enter as parameters: in particular each
candidate carries the mismatch count and diff raster that the pixelmatch
primitive produced for it.
-/

/-- A decoded PNG raster as produced by `PNG.sync.read`: `width`, `height`
and the RGBA byte buffer.  The buffer is modelled as a total function from
byte index to byte value; only indices below `4 * width * height` are
meaningful and the mask engine never writes outside them. -/
structure PNG where
  width : Nat
  height : Nat
  data : Nat → Nat

/-- `Math.min(hi, Math.max(0, v))` on integers, as used by `_clearRect`
(src/index.js lines 1064-1067) to clamp a coordinate into `[0, hi]`.
`parseInt` is the identity on the integer inputs modelled here. -/
def jsClamp (hi : Nat) (v : Int) : Nat :=
  (min (hi : Int) (max 0 v)).toNat

/-- Body of the inner loop of `_clearRect` (src/index.js lines 1087-1095):
for pixel `(x, y)` of a raster of width `w`, with byte offset
`k = 4 * (x + w * y)`, bump the counter when the alpha byte `k + 3` is
positive, then zero the four bytes `k .. k+3`
(JS `png.data.fill(0, k, k + 4)`). -/
def clearPixel (w : Nat) (st : Nat × (Nat → Nat)) (x y : Nat) : Nat × (Nat → Nat) :=
  let k := 4 * (x + w * y)
  let cnt := if 0 < st.2 (k + 3) then st.1 + 1 else st.1
  (cnt, fun i => if k ≤ i ∧ i < k + 4 then 0 else st.2 i)

/-- `_clearRect(png, x0, y0, x1, y1)` (src/index.js lines 1062-1102):
clamp the four coordinates into the raster, return `(0, png)` when the
clamped rectangle is degenerate, otherwise normalize the corner pair (the
source swaps `x0/x1` and `y0/y1` when given in reverse order, which is
exactly `min`/`max`) and clear every pixel of `[x0,x1) × [y0,y1)` row by
row, returning the number of cleared pixels whose alpha byte was
positive together with the mutated raster. -/
def clearRect (png : PNG) (a0 b0 a1 b1 : Int) : Nat × PNG :=
  let x0 := jsClamp png.width a0
  let x1 := jsClamp png.width a1
  let y0 := jsClamp png.height b0
  let y1 := jsClamp png.height b1
  if x0 = x1 ∨ y0 = y1 then (0, png)
  else
    let xlo := min x0 x1
    let xhi := max x0 x1
    let ylo := min y0 y1
    let yhi := max y0 y1
    let r := (List.range' ylo (yhi - ylo)).foldl
      (fun st y => (List.range' xlo (xhi - xlo)).foldl
        (fun st2 x => clearPixel png.width st2 x y) st)
      (0, png.data)
    (r.1, { width := png.width, height := png.height, data := r.2 })

/-- The alpha byte of pixel `(x, y)` of a raster (channel index 3). -/
def alphaAt (png : PNG) (x y : Nat) : Nat :=
  png.data (4 * (x + png.width * y) + 3)

/-- Number of pixels of `[xlo,xhi) × [ylo,yhi)` whose alpha byte is
positive: the quantity `_clearRect` reports. -/
def opaqueCount (png : PNG) (xlo xhi ylo yhi : Nat) : Nat :=
  ∑ y ∈ Finset.Ico ylo yhi, ∑ x ∈ Finset.Ico xlo xhi,
    if 0 < alphaAt png x y then 1 else 0

/-- The pixel set a `_clearRect(png, a0, b0, a1, b1)` call clears, after
clamping and min/max normalization, as a finite set of coordinates. -/
def clampedRect (png : PNG) (a0 b0 a1 b1 : Int) : Finset (Nat × Nat) :=
  Finset.Ico (min (jsClamp png.width a0) (jsClamp png.width a1))
      (max (jsClamp png.width a0) (jsClamp png.width a1)) ×ˢ
    Finset.Ico (min (jsClamp png.height b0) (jsClamp png.height b1))
      (max (jsClamp png.height b0) (jsClamp png.height b1))

/-- Number of pixels of an arbitrary coordinate set whose alpha byte is
positive. -/
def opaqueIn (png : PNG) (s : Finset (Nat × Nat)) : Nat :=
  ∑ p ∈ s, if 0 < alphaAt png p.1 p.2 then 1 else 0

/-- A bounding box or ignore rectangle `{left, top, width, height}`.
The fields are `parseInt` results, hence arbitrary integers. -/
structure Bounds where
  left : Int
  top : Int
  width : Int
  height : Int
  deriving DecidableEq

/-- The slice of the sanitized comparison options that the mask engine
consumes (`this.options.bounds` / `this.options.ignore`). -/
structure MaskOptions where
  bounds : Bounds
  ignore : List Bounds
  deriving DecidableEq

/-- `_applyBounds(png)` (src/index.js lines 491-533): when the bounding
box is active (any of its four fields non-zero, JS truthiness on numbers),
clear the four border rectangles around the box — left strip, top strip,
bottom strip, right strip — then clear every ignore rectangle, summing all
cleared-pixel counts.  Returns the total together with the mutated
raster. -/
def applyBounds (opts : MaskOptions) (png : PNG) : Nat × PNG :=
  let st :=
    if opts.bounds.left ≠ 0 ∨ opts.bounds.top ≠ 0 ∨
        opts.bounds.width ≠ 0 ∨ opts.bounds.height ≠ 0 then
      let x1 := opts.bounds.left
      let x2 := opts.bounds.left + opts.bounds.width
      let y1 := opts.bounds.top
      let y2 := opts.bounds.top + opts.bounds.height
      let x3 : Int := png.width
      let y3 : Int := png.height
      let r1 := clearRect png 0 0 x1 y3
      let r2 := clearRect r1.2 x1 0 x3 y1
      let r3 := clearRect r2.2 x1 y2 x3 y3
      let r4 := clearRect r3.2 x2 y1 x3 y2
      (r1.1 + r2.1 + r3.1 + r4.1, r4.2)
    else (0, png)
  opts.ignore.foldl
    (fun acc box =>
      let r := clearRect acc.2 box.left box.top (box.left + box.width)
        (box.top + box.height)
      (acc.1 + r.1, r.2))
    st

/-- A JS `number` restricted to the values the difference computation can
produce: an exact rational, `NaN`, or a signed infinity. -/
inductive JsNum where
  | nan : JsNum
  | posInf : JsNum
  | negInf : JsNum
  | finite : ℚ → JsNum
  deriving DecidableEq, Inhabited

/-- JS division `a / b` (IEEE semantics on the values we model exactly):
division by zero yields `NaN` for `0 / 0` and a signed infinity
otherwise. -/
def jsDiv (a b : ℚ) : JsNum :=
  if b = 0 then
    if a = 0 then .nan else if 0 < a then .posInf else .negInf
  else .finite (a / b)

/-- Round a rational to 4 decimal places, ties away from zero for the
non-negative values that occur here — the behaviour of
`parseFloat(x.toFixed(4))` on the exact value. -/
def round4 (q : ℚ) : ℚ :=
  (round (q * 10000) : ℤ) / 10000

/-- `parseFloat(x.toFixed(4))` lifted to `JsNum`: non-finite values print
and reparse to themselves. -/
def jsToFixed4 : JsNum → JsNum
  | .finite q => .finite (round4 q)
  | x => x

/-- The JS comparison `x <= t` for a possibly non-finite `x` and a finite
tolerance `t`: any comparison with `NaN` is false. -/
def jsLe (x : JsNum) (t : ℚ) : Bool :=
  match x with
  | .finite q => decide (q ≤ t)
  | .nan => false
  | .posInf => false
  | .negInf => true

/-- `'.png'` as a character list. -/
def pngSuffix : List Char := ['.', 'p', 'n', 'g']

/-- Everything after the last `'~'` of a string (the whole string when no
`'~'` occurs): the effect of removing a match of the greedy anchored
pattern `^.*~`.  Paths are assumed newline-free, so the JS `.` matches
every character. -/
def afterLastTilde (s : List Char) : List Char :=
  ((s.reverse.takeWhile fun c => c ≠ '~').reverse)

/-- Remove one trailing `'.png'` when present: the effect of removing a
match of `\.png$`. -/
def dropPngSuffix (s : List Char) : List Char :=
  if 4 ≤ s.length ∧ s.drop (s.length - 4) = pngSuffix then
    s.take (s.length - 4)
  else s

/-- The variation label of a candidate path (src/index.js lines 342-347):
empty when the path contains no `'~'` (`-1 === imgPath.indexOf('~')`),
otherwise `imgPath.replace(/\.png$|^.*~/g, '')` — drop everything up to
and including the last `'~'` and one trailing `'.png'`. -/
def variationOf (imgPath : List Char) : List Char :=
  if '~' ∈ imgPath then dropPngSuffix (afterLastTilde imgPath) else []

/-- `this.globalTolerance` as set by the constructor (src/index.js lines
208-210): the class-level default `0` when the config has no tolerance,
otherwise `Math.min(100, Math.max(0, parseFloat(config.tolerance)))`. -/
def constructorTolerance (configTolerance : Option ℚ) : ℚ :=
  match configTolerance with
  | none => 0
  | some v => min 100 (max 0 v)

/-- The per-invocation tolerance as sanitized by `_setupTest`
(src/index.js lines 692-696): the engine-wide default when the options
carry no tolerance, otherwise `Math.max(0, parseFloat(options.tolerance))`
— note the absence of an upper clamp. -/
def setupTolerance (globalTolerance : ℚ) (optionsTolerance : Option ℚ) : ℚ :=
  match optionsTolerance with
  | none => globalTolerance
  | some v => max 0 v

/-- One candidate baseline image as loaded in the comparison loop: its
decoded dimensions, its path (for the variation label), and the outputs
of the external pixelmatch primitive for it — the mismatch count and an
abstract token standing for the diff raster pixelmatch painted into the
shared `imgDiff` buffer during this iteration. -/
structure ExpectedImage where
  width : Nat
  height : Nat
  path : List Char
  diffPixels : Nat
  diffRaster : Nat
  deriving DecidableEq, Inhabited

/-- One entry of the `results` array (src/index.js lines 325-352). -/
structure CandidateResult where
  diffPixels : Nat
  totalPixels : Nat
  relevantPixels : Nat
  difference : JsNum
  matched : Bool
  variation : List Char
  diffImage : List Char
  deriving DecidableEq, Inhabited

/-- The running best-match state of the comparison loop (src/index.js
lines 298-300): `bestIndex = 0`, `bestDifference = totalPixels`, and the
initially undefined serialized snapshot `bestImgDiff`. -/
structure BestState where
  bestIndex : Nat
  bestDifference : Nat
  bestImgDiff : Option Nat
  deriving DecidableEq, Inhabited

/-- Evaluation of one candidate (src/index.js lines 335-352): relevant
pixels, difference percentage rounded to 4 decimals, tolerance check,
variation label, and the per-candidate diff filename (recorded only when
the candidate does not match and diff output is enabled). -/
def evalCandidate (tolerance : ℚ) (totalPixels ignoredPixels diffPixels : Nat)
    (imgPath : List Char) (diffEnabled : Bool) (diffName : List Char) :
    CandidateResult :=
  let relevantPixels := totalPixels - ignoredPixels
  let difference := jsDiv (100 * (diffPixels : ℚ)) (relevantPixels : ℚ)
  let differenceRounded := jsToFixed4 difference
  let matched := jsLe differenceRounded tolerance
  { diffPixels := diffPixels
    totalPixels := totalPixels
    relevantPixels := relevantPixels
    difference := differenceRounded
    matched := matched
    variation := variationOf imgPath
    diffImage := if !matched && diffEnabled then diffName else [] }

/-- The candidate loop of `getVisualDifferences` (src/index.js lines
312-362): for each candidate in discovery order, abort the whole
comparison when its dimensions differ from the actual raster, otherwise
record its result and update the best-match state — a strictly lower
mismatch count takes a serialized snapshot of the current diff raster and
becomes the new best. -/
def compareLoop (w h totalPixels ignoredPixels : Nat) (tolerance : ℚ)
    (diffEnabled : Bool) (diffName : Nat → List Char) (i : Nat)
    (st : BestState) :
    List ExpectedImage → Except String (List CandidateResult × BestState)
  | [] => .ok ([], st)
  | c :: rest =>
    if c.width ≠ w ∨ c.height ≠ h then .error "Image sizes do not match"
    else
      let r := evalCandidate tolerance totalPixels ignoredPixels c.diffPixels
        c.path diffEnabled (diffName i)
      let st2 :=
        if c.diffPixels < st.bestDifference then
          { bestIndex := i, bestDifference := c.diffPixels,
            bestImgDiff := some c.diffRaster }
        else st
      match compareLoop w h totalPixels ignoredPixels tolerance diffEnabled
          diffName (i + 1) st2 rest with
      | .error e => .error e
      | .ok (rs, stF) => .ok (r :: rs, stF)

/-- The final copy `res[key] = results[bestIndex][key]` (src/index.js
lines 364-370): the returned scalar fields are the best candidate's. -/
def pickBest (results : List CandidateResult) (bestIndex : Nat) :
    CandidateResult :=
  results.getD bestIndex default

/-- The comparison core of `getVisualDifferences` (src/index.js lines
283-381), with the externally produced inputs as parameters: dimensions of
the decoded actual raster, the pixel count `_applyBounds` cleared on it,
the sanitized tolerance, whether a diff directory is configured, the diff
filename builder, and the candidate list.  Checks the error conditions in
source order, runs the candidate loop from the initial best state
`{bestIndex = 0, bestDifference = totalPixels, bestImgDiff = undefined}`,
and assembles the returned record from the best candidate. -/
def getVisualDifferencesCore (w h ignoredPixels : Nat) (tolerance : ℚ)
    (diffEnabled : Bool) (diffName : Nat → List Char)
    (cands : List ExpectedImage) :
    Except String (CandidateResult × List CandidateResult × BestState) :=
  if cands.length = 0 then .error "No expected base image found"
  else if h = 0 then .error "Current screenshot is empty (zero height)"
  else
    let totalPixels := w * h
    let st0 : BestState :=
      { bestIndex := 0, bestDifference := totalPixels, bestImgDiff := none }
    match compareLoop w h totalPixels ignoredPixels tolerance diffEnabled
        diffName 0 st0 cands with
    | .error e => .error e
    | .ok (rs, stF) => .ok (pickBest rs stF.bestIndex, rs, stF)

/-- The best-match bookkeeping of the loop in isolation, acting on the
`(diffPixels, diffRaster)` pairs of the candidates in order. -/
def bestRun (st : BestState) (i : Nat) : List (Nat × Nat) → BestState
  | [] => st
  | p :: rest =>
    bestRun
      (if p.1 < st.bestDifference then
        { bestIndex := i, bestDifference := p.1, bestImgDiff := some p.2 }
      else st)
      (i + 1) rest

/-- The per-candidate results of the loop in isolation, for candidates
numbered from `i`. -/
def resultsFrom (tolerance : ℚ) (totalPixels ignoredPixels : Nat)
    (diffEnabled : Bool) (diffName : Nat → List Char) :
    Nat → List ExpectedImage → List CandidateResult
  | _, [] => []
  | i, c :: rest =>
    evalCandidate tolerance totalPixels ignoredPixels c.diffPixels c.path
        diffEnabled (diffName i) ::
      resultsFrom tolerance totalPixels ignoredPixels diffEnabled diffName
        (i + 1) rest

/-- Index of the first occurrence of the minimum of a list (0 on the
empty list): the selection the spec's tie-break rule describes. -/
def firstMinIdx : List Nat → Nat
  | [] => 0
  | [_] => 0
  | a :: b :: t =>
    let j := firstMinIdx (b :: t)
    if (b :: t).getD j 0 < a then j + 1 else 0

/-! ### Characterization of the mask engine -/

theorem jsClamp_le (hi : Nat) (v : Int) : jsClamp hi v ≤ hi := by
  unfold jsClamp
  omega

theorem jsClamp_natCast (hi n : Nat) (h : n ≤ hi) : jsClamp hi (n : Int) = n := by
  unfold jsClamp
  omega

theorem clearRow_eq (w y : Nat) :
    ∀ (n x0 c : Nat) (d : Nat → Nat),
      (List.range' x0 n).foldl (fun st2 x => clearPixel w st2 x y) (c, d) =
        (c + ∑ j ∈ Finset.range n,
            (if 0 < d (4 * (x0 + j + w * y) + 3) then 1 else 0),
          fun i => if 4 * (x0 + w * y) ≤ i ∧ i < 4 * (x0 + n + w * y) then 0
            else d i) := by
  intro n
  induction n with
  | zero =>
    intro x0 c d
    refine Prod.ext (by simp) ?_
    show d = fun i =>
      if 4 * (x0 + w * y) ≤ i ∧ i < 4 * (x0 + 0 + w * y) then 0 else d i
    funext i
    have h : ¬(4 * (x0 + w * y) ≤ i ∧ i < 4 * (x0 + 0 + w * y)) := by omega
    rw [if_neg h]
  | succ n ih =>
    intro x0 c d
    rw [List.range'_succ, List.foldl_cons]
    have hcp : clearPixel w (c, d) x0 y =
        ((if 0 < d (4 * (x0 + w * y) + 3) then c + 1 else c),
          fun i => if 4 * (x0 + w * y) ≤ i ∧ i < 4 * (x0 + w * y) + 4 then 0
            else d i) := rfl
    rw [hcp, ih]
    refine Prod.ext ?_ ?_
    · have hd : ∀ j : Nat,
          (if 4 * (x0 + w * y) ≤ 4 * (x0 + 1 + j + w * y) + 3 ∧
              4 * (x0 + 1 + j + w * y) + 3 < 4 * (x0 + w * y) + 4 then 0
            else d (4 * (x0 + 1 + j + w * y) + 3)) =
          d (4 * (x0 + 1 + j + w * y) + 3) := by
        intro j
        rw [if_neg]
        omega
      simp only [hd]
      rw [Finset.sum_range_succ']
      have hidx : ∀ j : Nat, 4 * (x0 + (j + 1) + w * y) + 3 =
          4 * (x0 + 1 + j + w * y) + 3 := by intro j; ring
      simp only [hidx]
      have h0 : 4 * (x0 + 0 + w * y) + 3 = 4 * (x0 + w * y) + 3 := by ring
      simp only [h0]
      by_cases h : 0 < d (4 * (x0 + w * y) + 3)
      all_goals simp [h]
      all_goals omega
    · funext i
      simp only []
      split_ifs <;> first | rfl | omega

theorem pixDiv (w x Y c : Nat) (hw : 0 < w) (hx : x < w) (hc : c < 4) :
    (4 * (x + w * Y) + c) / 4 / w = Y ∧ (4 * (x + w * Y) + c) / 4 % w = x := by
  have h4 : (4 * (x + w * Y) + c) / 4 = x + w * Y := by
    rw [Nat.mul_add_div (by norm_num), Nat.div_eq_of_lt hc]
    omega
  rw [h4, show x + w * Y = x + Y * w from by ring,
    Nat.add_mul_div_right _ _ hw, Nat.add_mul_mod_self_right,
    Nat.div_eq_of_lt hx, Nat.mod_eq_of_lt hx]
  omega

theorem rowByte_iff (w xlo xhi Y i : Nat) (hw : 0 < w) (hx : xhi ≤ w) :
    (4 * (xlo + w * Y) ≤ i ∧ i < 4 * (xhi + w * Y)) ↔
      (xlo ≤ i / 4 % w ∧ i / 4 % w < xhi ∧ i / 4 / w = Y) := by
  constructor
  · rintro ⟨h1, h2⟩
    have hq1 : xlo + w * Y ≤ i / 4 := by
      rw [Nat.le_div_iff_mul_le (by norm_num)]
      omega
    have hq2 : i / 4 < xhi + w * Y := by
      rw [Nat.div_lt_iff_lt_mul (by norm_num)]
      omega
    have hq : i / 4 = (i / 4 - w * Y) + w * Y := by omega
    have hr : i / 4 - w * Y < w := by omega
    rw [hq, Nat.add_mul_div_left _ _ hw, Nat.add_mul_mod_self_left,
      Nat.div_eq_of_lt hr, Nat.mod_eq_of_lt hr]
    omega
  · rintro ⟨h1, h2, h3⟩
    have hdm := Nat.div_add_mod (i / 4) w
    have hdm2 := Nat.div_add_mod i 4
    have hmod : i % 4 < 4 := Nat.mod_lt _ (by norm_num)
    rw [h3] at hdm
    omega

theorem clearRows_eq (w xlo xhi : Nat) (hw : 0 < w) (hx : xhi ≤ w)
    (hlo : xlo ≤ xhi) :
    ∀ (m ylo c : Nat) (d : Nat → Nat),
      (List.range' ylo m).foldl
          (fun st y => (List.range' xlo (xhi - xlo)).foldl
            (fun st2 x => clearPixel w st2 x y) st) (c, d) =
        (c + ∑ yy ∈ Finset.range m, ∑ j ∈ Finset.range (xhi - xlo),
            (if 0 < d (4 * (xlo + j + w * (ylo + yy)) + 3) then 1 else 0),
          fun i => if xlo ≤ i / 4 % w ∧ i / 4 % w < xhi ∧ ylo ≤ i / 4 / w ∧
              i / 4 / w < ylo + m then 0 else d i) := by
  intro m
  induction m with
  | zero =>
    intro ylo c d
    refine Prod.ext (by simp) ?_
    show d = fun i =>
      if xlo ≤ i / 4 % w ∧ i / 4 % w < xhi ∧ ylo ≤ i / 4 / w ∧
          i / 4 / w < ylo + 0 then 0 else d i
    funext i
    have h : ¬(xlo ≤ i / 4 % w ∧ i / 4 % w < xhi ∧ ylo ≤ i / 4 / w ∧
        i / 4 / w < ylo + 0) := by omega
    rw [if_neg h]
  | succ m ih =>
    intro ylo c d
    rw [List.range'_1_concat, List.foldl_append, List.foldl_cons,
      List.foldl_nil, ih, clearRow_eq]
    refine Prod.ext ?_ ?_
    · have hd : ∀ j : Nat, j < xhi - xlo →
          (if xlo ≤ (4 * (xlo + j + w * (ylo + m)) + 3) / 4 % w ∧
              (4 * (xlo + j + w * (ylo + m)) + 3) / 4 % w < xhi ∧
              ylo ≤ (4 * (xlo + j + w * (ylo + m)) + 3) / 4 / w ∧
              (4 * (xlo + j + w * (ylo + m)) + 3) / 4 / w < ylo + m then 0
            else d (4 * (xlo + j + w * (ylo + m)) + 3)) =
          d (4 * (xlo + j + w * (ylo + m)) + 3) := by
        intro j hj
        obtain ⟨hdiv, hmod⟩ := pixDiv w (xlo + j) (ylo + m) 3 hw (by omega)
          (by norm_num)
        rw [if_neg]
        rw [show 4 * (xlo + j + w * (ylo + m)) + 3 =
          4 * ((xlo + j) + w * (ylo + m)) + 3 from by ring, hdiv, hmod]
        omega
      show (c + ∑ yy ∈ Finset.range m, ∑ j ∈ Finset.range (xhi - xlo),
          (if 0 < d (4 * (xlo + j + w * (ylo + yy)) + 3) then 1 else 0)) +
          ∑ j ∈ Finset.range (xhi - xlo),
            (if 0 < (fun i => if xlo ≤ i / 4 % w ∧ i / 4 % w < xhi ∧
                ylo ≤ i / 4 / w ∧ i / 4 / w < ylo + m then 0 else d i)
              (4 * (xlo + j + w * (ylo + m)) + 3) then 1 else 0) = _
      have hsum : ∑ j ∈ Finset.range (xhi - xlo),
          (if 0 < (fun i => if xlo ≤ i / 4 % w ∧ i / 4 % w < xhi ∧
              ylo ≤ i / 4 / w ∧ i / 4 / w < ylo + m then 0 else d i)
            (4 * (xlo + j + w * (ylo + m)) + 3) then 1 else 0) =
          ∑ j ∈ Finset.range (xhi - xlo),
            (if 0 < d (4 * (xlo + j + w * (ylo + m)) + 3) then 1 else 0) := by
        refine Finset.sum_congr rfl ?_
        intro j hj
        rw [Finset.mem_range] at hj
        simp only [hd j hj]
      rw [hsum, Finset.sum_range_succ]
      omega
    · funext i
      simp only []
      have hxx : xlo + (xhi - xlo) = xhi := by omega
      rw [hxx]
      obtain ⟨hdiv, hmod⟩ :
          (4 * (xlo + w * (ylo + m)) ≤ i ∧ i < 4 * (xhi + w * (ylo + m))) ↔
            (xlo ≤ i / 4 % w ∧ i / 4 % w < xhi ∧ i / 4 / w = ylo + m) :=
        rowByte_iff w xlo xhi (ylo + m) i hw hx
      by_cases hrow : 4 * (xlo + w * (ylo + m)) ≤ i ∧
          i < 4 * (xhi + w * (ylo + m))
      · have h2 := hdiv hrow
        rw [if_pos hrow, if_pos (by omega)]
      · rw [if_neg hrow]
        have h3 : ¬(xlo ≤ i / 4 % w ∧ i / 4 % w < xhi ∧
            i / 4 / w = ylo + m) := fun h => hrow (hmod h)
        by_cases hold : xlo ≤ i / 4 % w ∧ i / 4 % w < xhi ∧
            ylo ≤ i / 4 / w ∧ i / 4 / w < ylo + m
        · rw [if_pos hold, if_pos (by omega)]
        · rw [if_neg hold, if_neg (by omega)]

theorem clearRect_spec (png : PNG) (a0 b0 a1 b1 : Int) (xlo xhi ylo yhi : Nat)
    (hxlo : xlo = min (jsClamp png.width a0) (jsClamp png.width a1))
    (hxhi : xhi = max (jsClamp png.width a0) (jsClamp png.width a1))
    (hylo : ylo = min (jsClamp png.height b0) (jsClamp png.height b1))
    (hyhi : yhi = max (jsClamp png.height b0) (jsClamp png.height b1)) :
    (clearRect png a0 b0 a1 b1).2.width = png.width ∧
    (clearRect png a0 b0 a1 b1).2.height = png.height ∧
    (clearRect png a0 b0 a1 b1).1 = opaqueCount png xlo xhi ylo yhi ∧
    (∀ x y c, x < png.width → y < png.height → c < 4 →
      (clearRect png a0 b0 a1 b1).2.data (4 * (x + png.width * y) + c) =
        if xlo ≤ x ∧ x < xhi ∧ ylo ≤ y ∧ y < yhi then 0
        else png.data (4 * (x + png.width * y) + c)) ∧
    (∀ i, 4 * (png.width * png.height) ≤ i →
      (clearRect png a0 b0 a1 b1).2.data i = png.data i) := by
  by_cases hdeg : jsClamp png.width a0 = jsClamp png.width a1 ∨
      jsClamp png.height b0 = jsClamp png.height b1
  · have hdeg2 : xlo = xhi ∨ ylo = yhi := by
      rcases hdeg with h | h
      · left
        rw [hxlo, hxhi, h]
        omega
      · right
        rw [hylo, hyhi, h]
        omega
    have hcr : clearRect png a0 b0 a1 b1 = (0, png) := by
      unfold clearRect
      rw [if_pos hdeg]
    rw [hcr]
    refine ⟨rfl, rfl, ?_, ?_, fun i _ => rfl⟩
    · have hoc : opaqueCount png xlo xhi ylo yhi = 0 := by
        unfold opaqueCount
        rcases hdeg2 with hxx | hyy
        · refine Finset.sum_eq_zero ?_
          intro y _
          rw [hxx, Finset.Ico_self]
          simp
        · rw [hyy, Finset.Ico_self]
          simp
      exact hoc.symm
    · intro x y c _ _ _
      rw [if_neg (by omega)]
  · push_neg at hdeg
    obtain ⟨hnex, hney⟩ := hdeg
    have hxlt : xlo < xhi := by
      rw [hxlo, hxhi]
      omega
    have hylt : ylo < yhi := by
      rw [hylo, hyhi]
      omega
    have hxw : xhi ≤ png.width := by
      have h1 := jsClamp_le png.width a0
      have h2 := jsClamp_le png.width a1
      rw [hxhi]
      omega
    have hyh : yhi ≤ png.height := by
      have h1 := jsClamp_le png.height b0
      have h2 := jsClamp_le png.height b1
      rw [hyhi]
      omega
    have hw : 0 < png.width := by omega
    have hcr : clearRect png a0 b0 a1 b1 =
        ((0 + ∑ yy ∈ Finset.range (yhi - ylo), ∑ j ∈ Finset.range (xhi - xlo),
            (if 0 < png.data (4 * (xlo + j + png.width * (ylo + yy)) + 3)
              then 1 else 0)),
          { width := png.width, height := png.height,
            data := fun i => if xlo ≤ i / 4 % png.width ∧
                i / 4 % png.width < xhi ∧ ylo ≤ i / 4 / png.width ∧
                i / 4 / png.width < ylo + (yhi - ylo) then 0
              else png.data i }) := by
      unfold clearRect
      rw [if_neg (by push_neg; exact ⟨hnex, hney⟩), ← hxlo, ← hxhi, ← hylo,
        ← hyhi]
      show (((List.range' ylo (yhi - ylo)).foldl
          (fun st y => (List.range' xlo (xhi - xlo)).foldl
            (fun st2 x => clearPixel png.width st2 x y) st) (0, png.data)).1,
        PNG.mk png.width png.height
          (((List.range' ylo (yhi - ylo)).foldl
            (fun st y => (List.range' xlo (xhi - xlo)).foldl
              (fun st2 x => clearPixel png.width st2 x y) st)
            (0, png.data)).2)) = _
      rw [clearRows_eq png.width xlo xhi hw hxw (le_of_lt hxlt)]
    rw [hcr]
    refine ⟨rfl, rfl, ?_, ?_, ?_⟩
    · show 0 + _ = _
      rw [Nat.zero_add]
      unfold opaqueCount alphaAt
      rw [Finset.sum_Ico_eq_sum_range]
      refine Finset.sum_congr rfl ?_
      intro yy _
      rw [Finset.sum_Ico_eq_sum_range]
    · intro x y c hxp hyp hcp
      obtain ⟨hdiv, hmod⟩ := pixDiv png.width x y c hw hxp hcp
      show (if xlo ≤ (4 * (x + png.width * y) + c) / 4 % png.width ∧
          (4 * (x + png.width * y) + c) / 4 % png.width < xhi ∧
          ylo ≤ (4 * (x + png.width * y) + c) / 4 / png.width ∧
          (4 * (x + png.width * y) + c) / 4 / png.width < ylo + (yhi - ylo)
          then 0 else png.data (4 * (x + png.width * y) + c)) = _
      simp only [hdiv, hmod, show ylo + (yhi - ylo) = yhi from by omega]
    · intro i hi
      have h1 : png.width * png.height ≤ i / 4 := by
        rw [Nat.le_div_iff_mul_le (by norm_num)]
        omega
      have h2 : png.height ≤ i / 4 / png.width := by
        rw [Nat.le_div_iff_mul_le hw]
        have hcomm : png.width * png.height = png.height * png.width :=
          Nat.mul_comm _ _
        omega
      show (if xlo ≤ i / 4 % png.width ∧ i / 4 % png.width < xhi ∧
          ylo ≤ i / 4 / png.width ∧
          i / 4 / png.width < ylo + (yhi - ylo) then 0 else png.data i) = _
      rw [if_neg (by omega)]

theorem clearRect_width (png : PNG) (a0 b0 a1 b1 : Int) :
    (clearRect png a0 b0 a1 b1).2.width = png.width :=
  (clearRect_spec png a0 b0 a1 b1 _ _ _ _ rfl rfl rfl rfl).1

theorem clearRect_height (png : PNG) (a0 b0 a1 b1 : Int) :
    (clearRect png a0 b0 a1 b1).2.height = png.height :=
  (clearRect_spec png a0 b0 a1 b1 _ _ _ _ rfl rfl rfl rfl).2.1

theorem clearRect_alphaAt (png : PNG) (a0 b0 a1 b1 : Int)
    (xlo xhi ylo yhi : Nat)
    (hxlo : xlo = min (jsClamp png.width a0) (jsClamp png.width a1))
    (hxhi : xhi = max (jsClamp png.width a0) (jsClamp png.width a1))
    (hylo : ylo = min (jsClamp png.height b0) (jsClamp png.height b1))
    (hyhi : yhi = max (jsClamp png.height b0) (jsClamp png.height b1))
    (x y : Nat) (hx : x < png.width) (hy : y < png.height) :
    alphaAt (clearRect png a0 b0 a1 b1).2 x y =
      if xlo ≤ x ∧ x < xhi ∧ ylo ≤ y ∧ y < yhi then 0 else alphaAt png x y := by
  unfold alphaAt
  rw [clearRect_width]
  exact (clearRect_spec png a0 b0 a1 b1 xlo xhi ylo yhi hxlo hxhi hylo
    hyhi).2.2.2.1 x y 3 hx hy (by norm_num)

/-- Claim C5: for every raster and integer coordinates (in either order,
possibly out of range), `_clearRect` clamps each x into `[0, width]` and
each y into `[0, height]`, min/max-normalizes the corner pair, returns 0
without modifying the raster when the normalized rectangle is degenerate,
and otherwise zeroes all four RGBA channels of exactly the pixels of
`[x0,x1) × [y0,y1)` in place — touching no byte outside that rectangle nor
beyond the buffer — and returns exactly the number of those pixels whose
alpha channel was positive before clearing. -/
theorem c5_clearRect_contract (png : PNG) (a0 b0 a1 b1 : Int)
    (xlo xhi ylo yhi : Nat)
    (hxlo : xlo = min (jsClamp png.width a0) (jsClamp png.width a1))
    (hxhi : xhi = max (jsClamp png.width a0) (jsClamp png.width a1))
    (hylo : ylo = min (jsClamp png.height b0) (jsClamp png.height b1))
    (hyhi : yhi = max (jsClamp png.height b0) (jsClamp png.height b1)) :
    (xlo ≤ xhi ∧ xhi ≤ png.width ∧ ylo ≤ yhi ∧ yhi ≤ png.height) ∧
    (xlo = xhi ∨ ylo = yhi → clearRect png a0 b0 a1 b1 = (0, png)) ∧
    (clearRect png a0 b0 a1 b1).2.width = png.width ∧
    (clearRect png a0 b0 a1 b1).2.height = png.height ∧
    (clearRect png a0 b0 a1 b1).1 = opaqueCount png xlo xhi ylo yhi ∧
    (∀ x y c, x < png.width → y < png.height → c < 4 →
      (clearRect png a0 b0 a1 b1).2.data (4 * (x + png.width * y) + c) =
        if xlo ≤ x ∧ x < xhi ∧ ylo ≤ y ∧ y < yhi then 0
        else png.data (4 * (x + png.width * y) + c)) ∧
    (∀ i, 4 * (png.width * png.height) ≤ i →
      (clearRect png a0 b0 a1 b1).2.data i = png.data i) := by
  obtain ⟨h1, h2, h3, h4, h5⟩ :=
    clearRect_spec png a0 b0 a1 b1 xlo xhi ylo yhi hxlo hxhi hylo hyhi
  refine ⟨?_, ?_, h1, h2, h3, h4, h5⟩
  · have ha0 := jsClamp_le png.width a0
    have ha1 := jsClamp_le png.width a1
    have hb0 := jsClamp_le png.height b0
    have hb1 := jsClamp_le png.height b1
    rw [hxlo, hxhi, hylo, hyhi]
    omega
  · intro hdeg
    unfold clearRect
    rw [if_pos]
    rw [hxlo, hxhi] at hdeg
    rw [hylo, hyhi] at hdeg
    omega

/-- Concrete 2x2 raster whose only opaque pixel is (0, 0). -/
def testPNG : PNG :=
  { width := 2, height := 2, data := fun i => if i = 3 then 5 else 0 }

/-- Witness for C5: on a concrete raster and rectangle the hypotheses hold
and the contract evaluates as stated. -/
theorem c5_clearRect_contract_witness :
    ((0 : Nat) = min (jsClamp testPNG.width 0) (jsClamp testPNG.width 2)) ∧
    (clearRect testPNG 0 0 2 1).1 = opaqueCount testPNG 0 2 0 1 ∧
    (clearRect testPNG 0 0 2 1).1 = 1 := by
  have h := (c5_clearRect_contract testPNG 0 0 2 1 0 2 0 1 (by decide)
    (by decide) (by decide) (by decide)).2.2.2.2.1
  exact ⟨by decide, h, by rw [h]; decide⟩

theorem opaqueCount_eq (png : PNG) (xlo xhi ylo yhi : Nat) :
    opaqueCount png xlo xhi ylo yhi =
      opaqueIn png (Finset.Ico xlo xhi ×ˢ Finset.Ico ylo yhi) := by
  unfold opaqueIn opaqueCount
  rw [Finset.sum_product]
  exact Finset.sum_comm.symm

theorem clearRect_count_opaqueIn (png : PNG) (a0 b0 a1 b1 : Int) :
    (clearRect png a0 b0 a1 b1).1 =
      opaqueIn png (clampedRect png a0 b0 a1 b1) := by
  rw [(clearRect_spec png a0 b0 a1 b1 _ _ _ _ rfl rfl rfl rfl).2.2.1,
    opaqueCount_eq]
  rfl

theorem clampedRect_mem_bounds (png : PNG) (c0 d0 c1 d1 : Int)
    (p : Nat × Nat) (hp : p ∈ clampedRect png c0 d0 c1 d1) :
    p.1 < png.width ∧ p.2 < png.height := by
  simp only [clampedRect, Finset.mem_product, Finset.mem_Ico] at hp
  have h1 := jsClamp_le png.width c0
  have h2 := jsClamp_le png.width c1
  have h3 := jsClamp_le png.height d0
  have h4 := jsClamp_le png.height d1
  omega

theorem clearRect_pair_count (png : PNG) (a0 b0 a1 b1 c0 d0 c1 d1 : Int) :
    (clearRect png a0 b0 a1 b1).1 +
      (clearRect (clearRect png a0 b0 a1 b1).2 c0 d0 c1 d1).1 =
    opaqueIn png
      (clampedRect png a0 b0 a1 b1 ∪ clampedRect png c0 d0 c1 d1) := by
  have hw1 : (clearRect png a0 b0 a1 b1).2.width = png.width :=
    clearRect_width png a0 b0 a1 b1
  have hh1 : (clearRect png a0 b0 a1 b1).2.height = png.height :=
    clearRect_height png a0 b0 a1 b1
  have hc2 : (clearRect (clearRect png a0 b0 a1 b1).2 c0 d0 c1 d1).1 =
      opaqueIn (clearRect png a0 b0 a1 b1).2 (clampedRect png c0 d0 c1 d1) := by
    rw [clearRect_count_opaqueIn]
    unfold clampedRect
    rw [hw1, hh1]
  have hsum : opaqueIn (clearRect png a0 b0 a1 b1).2
      (clampedRect png c0 d0 c1 d1) =
      ∑ p ∈ clampedRect png c0 d0 c1 d1,
        (if p ∈ clampedRect png a0 b0 a1 b1 then 0
          else if 0 < alphaAt png p.1 p.2 then 1 else 0) := by
    unfold opaqueIn
    refine Finset.sum_congr rfl ?_
    intro p hp
    obtain ⟨hx, hy⟩ := clampedRect_mem_bounds png c0 d0 c1 d1 p hp
    rw [clearRect_alphaAt png a0 b0 a1 b1 _ _ _ _ rfl rfl rfl rfl p.1 p.2
      hx hy]
    by_cases hmem : p ∈ clampedRect png a0 b0 a1 b1
    · have hco : min (jsClamp png.width a0) (jsClamp png.width a1) ≤ p.1 ∧
          p.1 < max (jsClamp png.width a0) (jsClamp png.width a1) ∧
          min (jsClamp png.height b0) (jsClamp png.height b1) ≤ p.2 ∧
          p.2 < max (jsClamp png.height b0) (jsClamp png.height b1) := by
        simp only [clampedRect, Finset.mem_product, Finset.mem_Ico] at hmem
        omega
      rw [if_pos hco, if_pos hmem]
      simp
    · have hco : ¬(min (jsClamp png.width a0) (jsClamp png.width a1) ≤ p.1 ∧
          p.1 < max (jsClamp png.width a0) (jsClamp png.width a1) ∧
          min (jsClamp png.height b0) (jsClamp png.height b1) ≤ p.2 ∧
          p.2 < max (jsClamp png.height b0) (jsClamp png.height b1)) := by
        simp only [clampedRect, Finset.mem_product, Finset.mem_Ico] at hmem
        omega
      rw [if_neg hco, if_neg hmem]
  have hsw : ∀ p : Nat × Nat,
      (if p ∈ clampedRect png a0 b0 a1 b1 then 0
        else if 0 < alphaAt png p.1 p.2 then 1 else 0) =
      (if p ∉ clampedRect png a0 b0 a1 b1 then
        (if 0 < alphaAt png p.1 p.2 then 1 else 0) else 0) := by
    intro p
    by_cases hmem : p ∈ clampedRect png a0 b0 a1 b1
    · rw [if_pos hmem, if_neg (not_not_intro hmem)]
    · rw [if_neg hmem, if_pos hmem]
  have hsdiff : ∑ p ∈ clampedRect png c0 d0 c1 d1,
      (if p ∈ clampedRect png a0 b0 a1 b1 then 0
        else if 0 < alphaAt png p.1 p.2 then 1 else 0) =
      ∑ p ∈ clampedRect png c0 d0 c1 d1 \ clampedRect png a0 b0 a1 b1,
        (if 0 < alphaAt png p.1 p.2 then 1 else 0) := by
    simp only [hsw]
    rw [Finset.sdiff_eq_filter, Finset.sum_filter]
  rw [clearRect_count_opaqueIn, hc2, hsum, hsdiff]
  unfold opaqueIn
  rw [← Finset.sum_union Finset.disjoint_sdiff,
    Finset.union_sdiff_self_eq_union]

/-- Claim C6: clearing is idempotent in its count — a second `_clearRect`
over the same rectangle returns 0 — and, in general, two successive
clears report each still-opaque pixel exactly once: the two counts sum to
the number of initially opaque pixels of the union of the two clamped
rectangles, so the total accumulated by `_applyBounds` is exact even for
overlapping regions. -/
theorem c6_clear_idempotent_counts :
    (∀ (png : PNG) (a0 b0 a1 b1 : Int),
      (clearRect (clearRect png a0 b0 a1 b1).2 a0 b0 a1 b1).1 = 0) ∧
    (∀ (png : PNG) (a0 b0 a1 b1 c0 d0 c1 d1 : Int),
      (clearRect png a0 b0 a1 b1).1 +
        (clearRect (clearRect png a0 b0 a1 b1).2 c0 d0 c1 d1).1 =
      opaqueIn png
        (clampedRect png a0 b0 a1 b1 ∪ clampedRect png c0 d0 c1 d1)) := by
  constructor
  · intro png a0 b0 a1 b1
    have h := clearRect_pair_count png a0 b0 a1 b1 a0 b0 a1 b1
    rw [Finset.union_self, ← clearRect_count_opaqueIn] at h
    omega
  · exact clearRect_pair_count

theorem applyBounds_noIgnore (opts : MaskOptions) (png : PNG)
    (hig : opts.ignore = [])
    (hcond : opts.bounds.left ≠ 0 ∨ opts.bounds.top ≠ 0 ∨
      opts.bounds.width ≠ 0 ∨ opts.bounds.height ≠ 0) :
    applyBounds opts png =
      ((clearRect png 0 0 opts.bounds.left (png.height : ℤ)).1 +
        (clearRect (clearRect png 0 0 opts.bounds.left (png.height : ℤ)).2
          opts.bounds.left 0 (png.width : ℤ) opts.bounds.top).1 +
        (clearRect (clearRect (clearRect png 0 0 opts.bounds.left
            (png.height : ℤ)).2 opts.bounds.left 0 (png.width : ℤ)
            opts.bounds.top).2 opts.bounds.left
          (opts.bounds.top + opts.bounds.height) (png.width : ℤ)
          (png.height : ℤ)).1 +
        (clearRect (clearRect (clearRect (clearRect png 0 0 opts.bounds.left
            (png.height : ℤ)).2 opts.bounds.left 0 (png.width : ℤ)
            opts.bounds.top).2 opts.bounds.left
            (opts.bounds.top + opts.bounds.height) (png.width : ℤ)
            (png.height : ℤ)).2
          (opts.bounds.left + opts.bounds.width) opts.bounds.top
          (png.width : ℤ) (opts.bounds.top + opts.bounds.height)).1,
       (clearRect (clearRect (clearRect (clearRect png 0 0 opts.bounds.left
            (png.height : ℤ)).2 opts.bounds.left 0 (png.width : ℤ)
            opts.bounds.top).2 opts.bounds.left
            (opts.bounds.top + opts.bounds.height) (png.width : ℤ)
            (png.height : ℤ)).2
          (opts.bounds.left + opts.bounds.width) opts.bounds.top
          (png.width : ℤ) (opts.bounds.top + opts.bounds.height)).2) := by
  unfold applyBounds
  rw [hig, List.foldl_nil, if_pos hcond]

theorem opaqueCount_full (png : PNG) (xlo xhi ylo yhi : Nat)
    (h : ∀ x y, xlo ≤ x → x < xhi → ylo ≤ y → y < yhi →
      0 < alphaAt png x y) :
    opaqueCount png xlo xhi ylo yhi = (yhi - ylo) * (xhi - xlo) := by
  unfold opaqueCount
  have hrow : ∀ y ∈ Finset.Ico ylo yhi,
      (∑ x ∈ Finset.Ico xlo xhi,
        if 0 < alphaAt png x y then 1 else 0) = xhi - xlo := by
    intro y hy
    rw [Finset.mem_Ico] at hy
    have hone : ∀ x ∈ Finset.Ico xlo xhi,
        (if 0 < alphaAt png x y then 1 else 0) = 1 := by
      intro x hx
      rw [Finset.mem_Ico] at hx
      rw [if_pos (h x y hx.1 hx.2 hy.1 hy.2)]
    rw [Finset.sum_congr rfl hone, Finset.sum_const, Nat.card_Ico,
      smul_eq_mul, mul_one]
  rw [Finset.sum_congr rfl hrow, Finset.sum_const, Nat.card_Ico, smul_eq_mul]

theorem clearRect_natRect (png : PNG) (A0 B0 A1 B1 : Int) (x0 y0 x1 y1 : Nat)
    (hA0 : A0 = (x0 : ℤ)) (hB0 : B0 = (y0 : ℤ)) (hA1 : A1 = (x1 : ℤ))
    (hB1 : B1 = (y1 : ℤ)) (hx01 : x0 ≤ x1) (hx1 : x1 ≤ png.width)
    (hy01 : y0 ≤ y1) (hy1 : y1 ≤ png.height) :
    (clearRect png A0 B0 A1 B1).1 = opaqueCount png x0 x1 y0 y1 ∧
    (∀ x y, x < png.width → y < png.height →
      alphaAt (clearRect png A0 B0 A1 B1).2 x y =
        if x0 ≤ x ∧ x < x1 ∧ y0 ≤ y ∧ y < y1 then 0 else alphaAt png x y) ∧
    (clearRect png A0 B0 A1 B1).2.width = png.width ∧
    (clearRect png A0 B0 A1 B1).2.height = png.height := by
  subst hA0 hB0 hA1 hB1
  have hxlo : x0 = min (jsClamp png.width (x0 : ℤ)) (jsClamp png.width (x1 : ℤ)) := by
    unfold jsClamp
    omega
  have hxhi : x1 = max (jsClamp png.width (x0 : ℤ)) (jsClamp png.width (x1 : ℤ)) := by
    unfold jsClamp
    omega
  have hylo : y0 = min (jsClamp png.height (y0 : ℤ)) (jsClamp png.height (y1 : ℤ)) := by
    unfold jsClamp
    omega
  have hyhi : y1 = max (jsClamp png.height (y0 : ℤ)) (jsClamp png.height (y1 : ℤ)) := by
    unfold jsClamp
    omega
  refine ⟨(clearRect_spec png _ _ _ _ x0 x1 y0 y1 hxlo hxhi hylo hyhi).2.2.1,
    ?_, clearRect_width png _ _ _ _, clearRect_height png _ _ _ _⟩
  intro x y hx hy
  exact clearRect_alphaAt png _ _ _ _ x0 x1 y0 y1 hxlo hxhi hylo hyhi x y hx hy

/-- Claim C4: when the bounding box is active and lies fully inside a
`W x H` raster, the four border clear-rectangles of `_applyBounds` tile
the complement of the box exactly once each — no gap, no double-cleared
pixel — so for an initially fully-opaque raster the total cleared count
plus the box area equals `W * H`, and the relevant pixel count
`W * H - cleared` equals the box area. -/
theorem c4_bounds_tiling_area (opts : MaskOptions) (png : PNG)
    (l t wd ht W H : Nat)
    (hbl : opts.bounds.left = (l : ℤ)) (hbt : opts.bounds.top = (t : ℤ))
    (hbw : opts.bounds.width = (wd : ℤ)) (hbh : opts.bounds.height = (ht : ℤ))
    (hig : opts.ignore = [])
    (hW : png.width = W) (hH : png.height = H)
    (hactive : ¬(l = 0 ∧ t = 0 ∧ wd = 0 ∧ ht = 0))
    (hxin : l + wd ≤ W) (hyin : t + ht ≤ H)
    (hfullOn : ∀ x y, x < W → y < H → 0 < alphaAt png x y) :
    (applyBounds opts png).1 + wd * ht = W * H ∧
    W * H - (applyBounds opts png).1 = wd * ht ∧
    (∀ x y, x < W → y < H →
      ((¬(l ≤ x ∧ x < l + wd ∧ t ≤ y ∧ y < t + ht)) ↔
        (x < l ∨ (l ≤ x ∧ y < t) ∨ (l ≤ x ∧ t + ht ≤ y) ∨
          (l + wd ≤ x ∧ t ≤ y ∧ y < t + ht))) ∧
      ¬(x < l ∧ l ≤ x ∧ y < t) ∧
      ¬(x < l ∧ l ≤ x ∧ t + ht ≤ y) ∧
      ¬(x < l ∧ l + wd ≤ x ∧ t ≤ y ∧ y < t + ht) ∧
      ¬((l ≤ x ∧ y < t) ∧ (l ≤ x ∧ t + ht ≤ y)) ∧
      ¬((l ≤ x ∧ y < t) ∧ (l + wd ≤ x ∧ t ≤ y ∧ y < t + ht)) ∧
      ¬((l ≤ x ∧ t + ht ≤ y) ∧ (l + wd ≤ x ∧ t ≤ y ∧ y < t + ht))) := by
  have hcond : opts.bounds.left ≠ 0 ∨ opts.bounds.top ≠ 0 ∨
      opts.bounds.width ≠ 0 ∨ opts.bounds.height ≠ 0 := by
    rw [hbl, hbt, hbw, hbh]
    omega
  have happ := applyBounds_noIgnore opts png hig hcond
  rw [hbl, hbt, hbw, hbh, hW, hH] at happ
  -- strip 1: left strip [0, l) x [0, H)
  obtain ⟨hc1, ha1, hw1, hh1⟩ := clearRect_natRect png 0 0 (l : ℤ) (H : ℤ)
    0 0 l H (by omega) (by omega) (by omega) (by omega) (by omega)
    (by omega) (by omega) (by omega)
  have hv1 : opaqueCount png 0 l 0 H = (H - 0) * (l - 0) := by
    refine opaqueCount_full png 0 l 0 H ?_
    intro x y _ h2 _ h4
    exact hfullOn x y (by omega) (by omega)
  -- strip 2: top strip [l, W) x [0, t)
  obtain ⟨hc2, ha2, hw2, hh2⟩ := clearRect_natRect
    (clearRect png 0 0 (l : ℤ) (H : ℤ)).2 (l : ℤ) 0 (W : ℤ) (t : ℤ)
    l 0 W t (by omega) (by omega) (by omega) (by omega) (by omega)
    (by omega) (by omega) (by omega)
  have hv2 : opaqueCount (clearRect png 0 0 (l : ℤ) (H : ℤ)).2 l W 0 t =
      (t - 0) * (W - l) := by
    refine opaqueCount_full _ l W 0 t ?_
    intro x y h1 h2 _ h4
    rw [ha1 x y (by omega) (by omega), if_neg (by omega)]
    exact hfullOn x y (by omega) (by omega)
  -- strip 3: bottom strip [l, W) x [t+ht, H)
  obtain ⟨hc3, ha3, hw3, hh3⟩ := clearRect_natRect
    (clearRect (clearRect png 0 0 (l : ℤ) (H : ℤ)).2 (l : ℤ) 0 (W : ℤ)
      (t : ℤ)).2
    (l : ℤ) ((t : ℤ) + (ht : ℤ)) (W : ℤ) (H : ℤ)
    l (t + ht) W H (by omega) (by omega) (by omega) (by omega) (by omega)
    (by omega) (by omega) (by omega)
  have hv3 : opaqueCount
      (clearRect (clearRect png 0 0 (l : ℤ) (H : ℤ)).2 (l : ℤ) 0 (W : ℤ)
        (t : ℤ)).2 l W (t + ht) H = (H - (t + ht)) * (W - l) := by
    refine opaqueCount_full _ l W (t + ht) H ?_
    intro x y h1 h2 h3 h4
    rw [ha2 x y (by omega) (by omega), if_neg (by omega),
      ha1 x y (by omega) (by omega), if_neg (by omega)]
    exact hfullOn x y (by omega) (by omega)
  -- strip 4: right strip [l+wd, W) x [t, t+ht)
  obtain ⟨hc4, ha4, hw4, hh4⟩ := clearRect_natRect
    (clearRect (clearRect (clearRect png 0 0 (l : ℤ) (H : ℤ)).2 (l : ℤ) 0
      (W : ℤ) (t : ℤ)).2 (l : ℤ) ((t : ℤ) + (ht : ℤ)) (W : ℤ) (H : ℤ)).2
    ((l : ℤ) + (wd : ℤ)) (t : ℤ) (W : ℤ) ((t : ℤ) + (ht : ℤ))
    (l + wd) t W (t + ht) (by omega) (by omega) (by omega) (by omega)
    (by omega) (by omega) (by omega) (by omega)
  have hv4 : opaqueCount
      (clearRect (clearRect (clearRect png 0 0 (l : ℤ) (H : ℤ)).2 (l : ℤ) 0
        (W : ℤ) (t : ℤ)).2 (l : ℤ) ((t : ℤ) + (ht : ℤ)) (W : ℤ) (H : ℤ)).2
      (l + wd) W t (t + ht) = ((t + ht) - t) * (W - (l + wd)) := by
    refine opaqueCount_full _ (l + wd) W t (t + ht) ?_
    intro x y h1 h2 h3 h4
    rw [ha3 x y (by omega) (by omega), if_neg (by omega),
      ha2 x y (by omega) (by omega), if_neg (by omega),
      ha1 x y (by omega) (by omega), if_neg (by omega)]
    exact hfullOn x y (by omega) (by omega)
  have hsum : (applyBounds opts png).1 =
      (clearRect png 0 0 (l : ℤ) (H : ℤ)).1 +
      (clearRect (clearRect png 0 0 (l : ℤ) (H : ℤ)).2 (l : ℤ) 0 (W : ℤ)
        (t : ℤ)).1 +
      (clearRect (clearRect (clearRect png 0 0 (l : ℤ) (H : ℤ)).2 (l : ℤ) 0
        (W : ℤ) (t : ℤ)).2 (l : ℤ) ((t : ℤ) + (ht : ℤ)) (W : ℤ) (H : ℤ)).1 +
      (clearRect (clearRect (clearRect (clearRect png 0 0 (l : ℤ) (H : ℤ)).2
        (l : ℤ) 0 (W : ℤ) (t : ℤ)).2 (l : ℤ) ((t : ℤ) + (ht : ℤ)) (W : ℤ)
        (H : ℤ)).2 ((l : ℤ) + (wd : ℤ)) (t : ℤ) (W : ℤ)
        ((t : ℤ) + (ht : ℤ))).1 := congrArg Prod.fst happ
  have htotal : (applyBounds opts png).1 + wd * ht = W * H := by
    rw [hsum, hc1, hv1, hc2, hv2, hc3, hv3, hc4, hv4]
    simp only [Nat.sub_zero]
    zify [show l ≤ W from by omega, show t ≤ t + ht from by omega, hxin,
      hyin]
    ring
  refine ⟨htotal, by omega, ?_⟩
  intro x y _ _
  constructor
  · omega
  exact ⟨by omega, by omega, by omega, by omega, by omega, by omega⟩

/-- Fully opaque 4x4 raster. -/
def fullPNG4 : PNG :=
  { width := 4, height := 4, data := fun _ => 255 }

/-- A 2x2 bounding box at (1, 1) with no ignore regions. -/
def boxOpts4 : MaskOptions :=
  { bounds := { left := 1, top := 1, width := 2, height := 2 }, ignore := [] }

/-- Witness for C4: a 2x2 box inside a fully opaque 4x4 raster clears
exactly 12 pixels, and 12 + box area = 16. -/
theorem c4_bounds_tiling_area_witness :
    (1 + 2 ≤ 4) ∧ (applyBounds boxOpts4 fullPNG4).1 + 2 * 2 = 4 * 4 ∧
      (applyBounds boxOpts4 fullPNG4).1 = 12 := by
  have h := c4_bounds_tiling_area boxOpts4 fullPNG4 1 1 2 2 4 4 (by decide)
    (by decide) (by decide) (by decide) rfl rfl rfl (by decide) (by decide)
    (by decide) (fun x y _ _ => Nat.succ_pos 254)
  refine ⟨by decide, h.1, ?_⟩
  have h1 := h.1
  omega

/-! ### Characterization of the comparison loop -/

theorem bestRun_unchanged (l : List (Nat × Nat)) :
    ∀ (i : Nat) (st : BestState),
      (∀ p ∈ l, st.bestDifference ≤ p.1) → bestRun st i l = st := by
  induction l with
  | nil =>
    intro i st _
    rfl
  | cons p rest ih =>
    intro i st h
    have hnot : ¬ p.1 < st.bestDifference := by
      have := h p (List.mem_cons_self p rest)
      omega
    show bestRun (if p.1 < st.bestDifference then
        { bestIndex := i, bestDifference := p.1, bestImgDiff := some p.2 }
      else st) (i + 1) rest = st
    rw [if_neg hnot]
    exact ih (i + 1) st fun q hq => h q (List.mem_cons_of_mem p hq)

theorem bestRun_firstMin (l : List (Nat × Nat)) :
    ∀ (i : Nat) (st : BestState) (j : Nat), j < l.length →
      (l.map Prod.fst).getD j 0 < st.bestDifference →
      (∀ k, k < l.length →
        (l.map Prod.fst).getD j 0 ≤ (l.map Prod.fst).getD k 0) →
      (∀ k, k < j → (l.map Prod.fst).getD j 0 < (l.map Prod.fst).getD k 0) →
      bestRun st i l =
        { bestIndex := i + j, bestDifference := (l.map Prod.fst).getD j 0,
          bestImgDiff := some ((l.map Prod.snd).getD j 0) } := by
  induction l with
  | nil =>
    intro i st j hj
    simp at hj
  | cons p rest ih =>
    intro i st j hj hlt hmin hfirst
    cases j with
    | zero =>
      have hv : ((p :: rest).map Prod.fst).getD 0 0 = p.1 := rfl
      rw [hv] at hlt hmin
      show bestRun (if p.1 < st.bestDifference then
          { bestIndex := i, bestDifference := p.1, bestImgDiff := some p.2 }
        else st) (i + 1) rest = _
      rw [if_pos hlt]
      rw [bestRun_unchanged rest (i + 1) _ ?_]
      · rw [hv]
        have hs : ((p :: rest).map Prod.snd).getD 0 0 = p.2 := rfl
        rw [hs]
        have : i + 0 = i := by omega
        rw [this]
      · intro q hq
        obtain ⟨k, hk, hget⟩ := List.mem_iff_getElem.mp hq
        have hk1 : k + 1 < (p :: rest).length := by
          simp only [List.length_cons]
          omega
        have := hmin (k + 1) hk1
        have hgd : ((p :: rest).map Prod.fst).getD (k + 1) 0 = q.1 := by
          show (rest.map Prod.fst).getD k 0 = q.1
          rw [List.getD_eq_getElem (rest.map Prod.fst) 0
            (by simpa using hk)]
          simp [hget]
        rw [hgd] at this
        exact this
    | succ j' =>
      have hvj : ((p :: rest).map Prod.fst).getD (j' + 1) 0 =
          (rest.map Prod.fst).getD j' 0 := rfl
      have hvs : ((p :: rest).map Prod.snd).getD (j' + 1) 0 =
          (rest.map Prod.snd).getD j' 0 := rfl
      rw [hvj] at hlt hmin hfirst
      rw [hvj, hvs]
      have hj' : j' < rest.length := by
        simp only [List.length_cons] at hj
        omega
      have hp0 : (rest.map Prod.fst).getD j' 0 < p.1 := by
        have := hfirst 0 (by omega)
        simpa using this
      show bestRun (if p.1 < st.bestDifference then
          { bestIndex := i, bestDifference := p.1, bestImgDiff := some p.2 }
        else st) (i + 1) rest = _
      have harith : i + (j' + 1) = (i + 1) + j' := by omega
      rw [harith]
      by_cases hup : p.1 < st.bestDifference
      · rw [if_pos hup]
        exact ih (i + 1) _ j' hj' (by simpa using hp0)
          (fun k hk => by
            have := hmin (k + 1) (by simp only [List.length_cons]; omega)
            simpa using this)
          (fun k hk => by
            have := hfirst (k + 1) (by omega)
            simpa using this)
      · rw [if_neg hup]
        exact ih (i + 1) st j' hj' (by omega)
          (fun k hk => by
            have := hmin (k + 1) (by simp only [List.length_cons]; omega)
            simpa using this)
          (fun k hk => by
            have := hfirst (k + 1) (by omega)
            simpa using this)

theorem firstMinIdx_spec : ∀ (l : List Nat), l ≠ [] →
    firstMinIdx l < l.length ∧
    (∀ k, k < l.length → l.getD (firstMinIdx l) 0 ≤ l.getD k 0) ∧
    (∀ k, k < firstMinIdx l → l.getD (firstMinIdx l) 0 < l.getD k 0)
  | [], h => absurd rfl h
  | [a], _ => by
    refine ⟨by simp [firstMinIdx], ?_, ?_⟩
    · intro k hk
      have hk0 : k = 0 := by
        simp only [List.length_singleton] at hk
        omega
      subst hk0
      simp [firstMinIdx]
    · intro k hk
      simp [firstMinIdx] at hk
  | a :: b :: t, _ => by
    obtain ⟨ih1, ih2, ih3⟩ := firstMinIdx_spec (b :: t) (by simp)
    by_cases hlt : (b :: t).getD (firstMinIdx (b :: t)) 0 < a
    · have hfm : firstMinIdx (a :: b :: t) = firstMinIdx (b :: t) + 1 := by
        simp only [firstMinIdx]
        rw [if_pos hlt]
      rw [hfm]
      refine ⟨?_, ?_, ?_⟩
      · simp only [List.length_cons]
        simp only [List.length_cons] at ih1
        omega
      · intro k hk
        show (b :: t).getD (firstMinIdx (b :: t)) 0 ≤ (a :: b :: t).getD k 0
        cases k with
        | zero =>
          show (b :: t).getD (firstMinIdx (b :: t)) 0 ≤ a
          omega
        | succ k' =>
          show (b :: t).getD (firstMinIdx (b :: t)) 0 ≤ (b :: t).getD k' 0
          exact ih2 k' (by simp only [List.length_cons] at hk ⊢; omega)
      · intro k hk
        show (b :: t).getD (firstMinIdx (b :: t)) 0 < (a :: b :: t).getD k 0
        cases k with
        | zero => exact hlt
        | succ k' =>
          show (b :: t).getD (firstMinIdx (b :: t)) 0 < (b :: t).getD k' 0
          exact ih3 k' (by omega)
    · have hfm : firstMinIdx (a :: b :: t) = 0 := by
        simp only [firstMinIdx]
        rw [if_neg hlt]
      rw [hfm]
      refine ⟨by simp, ?_, ?_⟩
      · intro k hk
        show a ≤ (a :: b :: t).getD k 0
        cases k with
        | zero => exact le_refl a
        | succ k' =>
          show a ≤ (b :: t).getD k' 0
          have := ih2 k' (by simp only [List.length_cons] at hk ⊢; omega)
          omega
      · intro k hk
        omega

theorem listGetD_map {α β : Type} (f : α → β) (dB : β) (dA : α) :
    ∀ (l : List α) (j : Nat), j < l.length →
      (l.map f).getD j dB = f (l.getD j dA)
  | [], j, hj => by simp at hj
  | a :: rest, 0, _ => rfl
  | a :: rest, j + 1, hj => by
    show (rest.map f).getD j dB = f (rest.getD j dA)
    exact listGetD_map f dB dA rest j
      (by simp only [List.length_cons] at hj; omega)

theorem resultsFrom_getD (tol : ℚ) (total ignored : Nat) (dEn : Bool)
    (dn : Nat → List Char) :
    ∀ (cands : List ExpectedImage) (i j : Nat), j < cands.length →
      (resultsFrom tol total ignored dEn dn i cands).getD j default =
        evalCandidate tol total ignored
          ((cands.getD j default).diffPixels) ((cands.getD j default).path)
          dEn (dn (i + j))
  | [], i, j, hj => by simp at hj
  | c :: rest, i, 0, _ => by
    show evalCandidate tol total ignored c.diffPixels c.path dEn (dn i) = _
    have : i + 0 = i := by omega
    rw [this]
    rfl
  | c :: rest, i, j + 1, hj => by
    show (resultsFrom tol total ignored dEn dn (i + 1) rest).getD j default = _
    rw [resultsFrom_getD tol total ignored dEn dn rest (i + 1) j
      (by simp only [List.length_cons] at hj; omega)]
    have : i + 1 + j = i + (j + 1) := by omega
    rw [this]
    rfl

theorem compareLoop_ok (w h totalPixels ignoredPixels : Nat) (tol : ℚ)
    (dEn : Bool) (dn : Nat → List Char) :
    ∀ (cands : List ExpectedImage),
      (∀ c ∈ cands, c.width = w ∧ c.height = h) →
      ∀ (i : Nat) (st : BestState),
        compareLoop w h totalPixels ignoredPixels tol dEn dn i st cands =
          .ok (resultsFrom tol totalPixels ignoredPixels dEn dn i cands,
            bestRun st i (cands.map fun c => (c.diffPixels, c.diffRaster)))
  | [], _, i, st => rfl
  | c :: rest, hdims, i, st => by
    have hc := hdims c (List.mem_cons_self c rest)
    show (if c.width ≠ w ∨ c.height ≠ h then
        Except.error "Image sizes do not match"
      else _) = _
    rw [if_neg (by simp [hc.1, hc.2])]
    show (match compareLoop w h totalPixels ignoredPixels tol dEn dn (i + 1)
        (if c.diffPixels < st.bestDifference then
          { bestIndex := i, bestDifference := c.diffPixels,
            bestImgDiff := some c.diffRaster }
        else st) rest with
      | Except.error e => Except.error e
      | Except.ok (rs, stF) =>
        Except.ok (evalCandidate tol totalPixels ignoredPixels c.diffPixels
          c.path dEn (dn i) :: rs, stF)) = _
    rw [compareLoop_ok w h totalPixels ignoredPixels tol dEn dn rest
      (fun c' hc' => hdims c' (List.mem_cons_of_mem c hc')) (i + 1) _]
    rfl

/-- The initial best-match state (src/index.js lines 298-300):
`bestIndex = 0`, `bestDifference = totalPixels`, snapshot undefined. -/
def initialBestState (totalPixels : Nat) : BestState :=
  { bestIndex := 0, bestDifference := totalPixels, bestImgDiff := none }

theorem core_ok (w h ignored : Nat) (tol : ℚ) (dEn : Bool)
    (dn : Nat → List Char) (cands : List ExpectedImage)
    (hne : cands ≠ []) (hh : h ≠ 0)
    (hdims : ∀ c ∈ cands, c.width = w ∧ c.height = h) :
    getVisualDifferencesCore w h ignored tol dEn dn cands =
      .ok (pickBest (resultsFrom tol (w * h) ignored dEn dn 0 cands)
          (bestRun (initialBestState (w * h)) 0
            (cands.map fun c => (c.diffPixels, c.diffRaster))).bestIndex,
        resultsFrom tol (w * h) ignored dEn dn 0 cands,
        bestRun (initialBestState (w * h)) 0
          (cands.map fun c => (c.diffPixels, c.diffRaster))) := by
  unfold getVisualDifferencesCore
  rw [if_neg (by simp [List.length_eq_zero, hne]), if_neg hh]
  show (match compareLoop w h (w * h) ignored tol dEn dn 0
      (initialBestState (w * h)) cands with
    | Except.error e => Except.error e
    | Except.ok (rs, stF) => Except.ok (pickBest rs stF.bestIndex, rs, stF)) = _
  rw [compareLoop_ok w h (w * h) ignored tol dEn dn cands hdims 0 _]

theorem pairs_map_fst (cands : List ExpectedImage) :
    (cands.map fun c => (c.diffPixels, c.diffRaster)).map Prod.fst =
      cands.map fun c => c.diffPixels := by
  rw [List.map_map]
  rfl

theorem pairs_map_snd (cands : List ExpectedImage) :
    (cands.map fun c => (c.diffPixels, c.diffRaster)).map Prod.snd =
      cands.map fun c => c.diffRaster := by
  rw [List.map_map]
  rfl

/-- Claim C1: over a non-empty candidate list (all candidates matching the
actual raster's dimensions, with mismatch counts bounded by the total
pixel count as the pixelmatch primitive guarantees), the returned record's
scalar fields come from the candidate with the lowest absolute mismatch
count, ties resolved in favour of the earliest candidate: the final best
index is the first index of the minimum of the `diffPixels` list, and the
returned record is the evaluation of exactly that candidate. -/
theorem c1_best_candidate_selection (w h ignored : Nat) (tol : ℚ)
    (dEn : Bool) (dn : Nat → List Char) (cands : List ExpectedImage)
    (hne : cands ≠ []) (hh : h ≠ 0)
    (hdims : ∀ c ∈ cands, c.width = w ∧ c.height = h)
    (hbound : ∀ c ∈ cands, c.diffPixels ≤ w * h) :
    ∃ rs stF,
      getVisualDifferencesCore w h ignored tol dEn dn cands =
        .ok (pickBest rs stF.bestIndex, rs, stF) ∧
      stF.bestIndex = firstMinIdx (cands.map fun c => c.diffPixels) ∧
      stF.bestIndex < cands.length ∧
      (∀ k, k < cands.length →
        (cands.map fun c => c.diffPixels).getD stF.bestIndex 0 ≤
          (cands.map fun c => c.diffPixels).getD k 0) ∧
      (∀ k, k < stF.bestIndex →
        (cands.map fun c => c.diffPixels).getD stF.bestIndex 0 <
          (cands.map fun c => c.diffPixels).getD k 0) ∧
      pickBest rs stF.bestIndex =
        evalCandidate tol (w * h) ignored
          ((cands.getD stF.bestIndex default).diffPixels)
          ((cands.getD stF.bestIndex default).path) dEn
          (dn stF.bestIndex) := by
  refine ⟨resultsFrom tol (w * h) ignored dEn dn 0 cands,
    bestRun (initialBestState (w * h)) 0
      (cands.map fun c => (c.diffPixels, c.diffRaster)),
    core_ok w h ignored tol dEn dn cands hne hh hdims, ?_⟩
  have hne' : (cands.map fun c => c.diffPixels) ≠ [] := by simpa using hne
  obtain ⟨hj1, hj2, hj3⟩ := firstMinIdx_spec _ hne'
  rw [List.length_map] at hj1
  have hbi : (bestRun (initialBestState (w * h)) 0
      (cands.map fun c => (c.diffPixels, c.diffRaster))).bestIndex =
      firstMinIdx (cands.map fun c => c.diffPixels) := by
    by_cases hcase : (cands.map fun c => c.diffPixels).getD
        (firstMinIdx (cands.map fun c => c.diffPixels)) 0 < w * h
    · rw [bestRun_firstMin (cands.map fun c => (c.diffPixels, c.diffRaster))
        0 (initialBestState (w * h))
        (firstMinIdx (cands.map fun c => c.diffPixels))
        (by rw [List.length_map]; exact hj1)
        (by rw [pairs_map_fst]; exact hcase)
        (by
          intro k hk
          rw [pairs_map_fst]
          rw [List.length_map] at hk
          exact hj2 k (by rw [List.length_map]; exact hk))
        (by
          intro k hk
          rw [pairs_map_fst]
          exact hj3 k hk)]
      show 0 + firstMinIdx (cands.map fun c => c.diffPixels) = _
      omega
    · have hge : ∀ p ∈ cands.map fun c => (c.diffPixels, c.diffRaster),
          (initialBestState (w * h)).bestDifference ≤ p.1 := by
        intro p hp
        obtain ⟨c, hc, hpc⟩ := List.mem_map.mp hp
        have hvmem : c.diffPixels ∈ cands.map fun c => c.diffPixels :=
          List.mem_map.mpr ⟨c, hc, rfl⟩
        obtain ⟨k, hk, hgetk⟩ := List.mem_iff_getElem.mp hvmem
        have hle := hj2 k hk
        have hgd : (cands.map fun c => c.diffPixels).getD k 0 =
            c.diffPixels := by
          rw [List.getD_eq_getElem _ 0 hk, hgetk]
        show w * h ≤ p.1
        rw [← hpc]
        show w * h ≤ c.diffPixels
        omega
      rw [bestRun_unchanged _ 0 (initialBestState (w * h)) hge]
      have hj0 : firstMinIdx (cands.map fun c => c.diffPixels) = 0 := by
        by_contra hne0
        have hlt := hj3 0 (by omega)
        have h0len : 0 < (cands.map fun c => c.diffPixels).length := by
          rw [List.length_map]
          exact List.length_pos.mpr hne
        have hv0mem : (cands.map fun c => c.diffPixels).getD 0 0 ∈
            cands.map fun c => c.diffPixels := by
          rw [List.getD_eq_getElem _ 0 h0len]
          exact List.getElem_mem _
        obtain ⟨c, hc, hpc⟩ := List.mem_map.mp hv0mem
        have hc2 := hbound c hc
        omega
      rw [hj0]
      rfl
  refine ⟨hbi, by rw [hbi]; exact hj1, ?_, ?_, ?_⟩
  · intro k hk
    rw [hbi]
    exact hj2 k (by rw [List.length_map]; exact hk)
  · intro k hk
    rw [hbi] at hk ⊢
    exact hj3 k hk
  · rw [hbi]
    show (resultsFrom tol (w * h) ignored dEn dn 0 cands).getD
      (firstMinIdx (cands.map fun c => c.diffPixels)) default = _
    rw [resultsFrom_getD tol (w * h) ignored dEn dn cands 0
      (firstMinIdx (cands.map fun c => c.diffPixels)) hj1]
    rw [Nat.zero_add]

/-- Candidate list with mismatch counts [5, 5, 3, 3] over a 10x10 raster. -/
def tieCands : List ExpectedImage :=
  [{ width := 10, height := 10, path := [], diffPixels := 5, diffRaster := 0 },
   { width := 10, height := 10, path := [], diffPixels := 5, diffRaster := 1 },
   { width := 10, height := 10, path := [], diffPixels := 3, diffRaster := 2 },
   { width := 10, height := 10, path := [], diffPixels := 3, diffRaster := 3 }]

/-- Witness for C1: with mismatch counts [5, 5, 3, 3] the selected best
index is 2, the first occurrence of the minimum. -/
theorem c1_best_candidate_selection_witness :
    tieCands ≠ [] ∧
    ∃ rs stF,
      getVisualDifferencesCore 10 10 0 0 false (fun _ => []) tieCands =
        .ok (pickBest rs stF.bestIndex, rs, stF) ∧
      stF.bestIndex = 2 := by
  refine ⟨by decide, ?_⟩
  obtain ⟨rs, stF, hcore, hidx, _⟩ := c1_best_candidate_selection 10 10 0 0
    false (fun _ => []) tieCands (by decide) (by decide) (by decide)
    (by decide)
  refine ⟨rs, stF, hcore, ?_⟩
  rw [hidx]
  decide

theorem bestRun_char (w h : Nat) (cands : List ExpectedImage)
    (hne : cands ≠ []) :
    (bestRun (initialBestState (w * h)) 0
        (cands.map fun c => (c.diffPixels, c.diffRaster))).bestImgDiff =
      (if (cands.map fun c => c.diffPixels).getD
          (firstMinIdx (cands.map fun c => c.diffPixels)) 0 < w * h
        then some ((cands.map fun c => c.diffRaster).getD
          (firstMinIdx (cands.map fun c => c.diffPixels)) 0)
        else none) := by
  have hne' : (cands.map fun c => c.diffPixels) ≠ [] := by simpa using hne
  obtain ⟨hj1, hj2, hj3⟩ := firstMinIdx_spec _ hne'
  rw [List.length_map] at hj1
  by_cases hcase : (cands.map fun c => c.diffPixels).getD
      (firstMinIdx (cands.map fun c => c.diffPixels)) 0 < w * h
  · rw [bestRun_firstMin (cands.map fun c => (c.diffPixels, c.diffRaster))
      0 (initialBestState (w * h))
      (firstMinIdx (cands.map fun c => c.diffPixels))
      (by rw [List.length_map]; exact hj1)
      (by rw [pairs_map_fst]; exact hcase)
      (by
        intro k hk
        rw [pairs_map_fst]
        rw [List.length_map] at hk
        exact hj2 k (by rw [List.length_map]; exact hk))
      (by
        intro k hk
        rw [pairs_map_fst]
        exact hj3 k hk)]
    rw [if_pos hcase, pairs_map_snd]
  · have hge : ∀ p ∈ cands.map fun c => (c.diffPixels, c.diffRaster),
        (initialBestState (w * h)).bestDifference ≤ p.1 := by
      intro p hp
      obtain ⟨c, hc, hpc⟩ := List.mem_map.mp hp
      have hvmem : c.diffPixels ∈ cands.map fun c => c.diffPixels :=
        List.mem_map.mpr ⟨c, hc, rfl⟩
      obtain ⟨k, hk, hgetk⟩ := List.mem_iff_getElem.mp hvmem
      have hle := hj2 k hk
      have hgd : (cands.map fun c => c.diffPixels).getD k 0 =
          c.diffPixels := by
        rw [List.getD_eq_getElem _ 0 hk, hgetk]
      show w * h ≤ p.1
      rw [← hpc]
      show w * h ≤ c.diffPixels
      omega
    rw [bestRun_unchanged _ 0 (initialBestState (w * h)) hge, if_neg hcase]
    rfl

/-- Claim C3 counterexample: a single candidate whose mismatch count
equals `totalPixels` (1 differing pixel in a 1x1 comparison) does not
match — yet no diff-raster snapshot has been retained after candidate 0
was evaluated, because the `diffPixels < bestDifference` test fails
against the initial `bestDifference = totalPixels`.  This refutes "the
first candidate always initializes the best-so-far snapshot" and
"whenever the best candidate does not match, a retained snapshot
exists". -/
theorem c3_counterexample_no_snapshot :
    (getVisualDifferencesCore 1 1 0 0 false (fun _ => [])
        [{ width := 1, height := 1, path := [], diffPixels := 1,
           diffRaster := 7 }]).toOption.map
      (fun x => (x.1.matched, x.2.2.bestIndex, x.2.2.bestImgDiff)) =
    some (false, 0, none) := by
  rw [core_ok 1 1 0 0 false (fun _ => [])
    [{ width := 1, height := 1, path := [], diffPixels := 1,
       diffRaster := 7 }] (by simp) (by simp) (by simp)]
  simp only [Except.toOption, Option.map, pickBest, resultsFrom,
    evalCandidate, bestRun, initialBestState, jsDiv, jsToFixed4, jsLe,
    round4]
  norm_num

/-- Claim C3 (amended): candidate 0 always initializes the best index —
after a single candidate the best index is 0 in all cases — but a
serialized snapshot of the best candidate's diff raster is retained
exactly when the best mismatch count is strictly below `totalPixels`
(the initial `bestDifference`); it is replaced only on strict
improvement.  A best candidate with mismatch count equal to
`totalPixels` leaves no snapshot even when it does not match. -/
theorem c3_best_snapshot_amended (w h ignored : Nat) (tol : ℚ)
    (dEn : Bool) (dn : Nat → List Char) (cands : List ExpectedImage)
    (hne : cands ≠ []) (hh : h ≠ 0)
    (hdims : ∀ c ∈ cands, c.width = w ∧ c.height = h) :
    ∃ rs stF,
      getVisualDifferencesCore w h ignored tol dEn dn cands =
        .ok (pickBest rs stF.bestIndex, rs, stF) ∧
      stF.bestImgDiff =
        (if (cands.map fun c => c.diffPixels).getD
            (firstMinIdx (cands.map fun c => c.diffPixels)) 0 < w * h
          then some ((cands.map fun c => c.diffRaster).getD
            (firstMinIdx (cands.map fun c => c.diffPixels)) 0)
          else none) ∧
      (∀ c0 : ExpectedImage,
        (bestRun (initialBestState (w * h)) 0
          [(c0.diffPixels, c0.diffRaster)]).bestIndex = 0) := by
  refine ⟨resultsFrom tol (w * h) ignored dEn dn 0 cands,
    bestRun (initialBestState (w * h)) 0
      (cands.map fun c => (c.diffPixels, c.diffRaster)),
    core_ok w h ignored tol dEn dn cands hne hh hdims,
    bestRun_char w h cands hne, ?_⟩
  intro c0
  show (if c0.diffPixels < w * h then
      ({ bestIndex := 0, bestDifference := c0.diffPixels,
         bestImgDiff := some c0.diffRaster } : BestState)
    else initialBestState (w * h)).bestIndex = 0
  by_cases hc : c0.diffPixels < w * h
  · rw [if_pos hc]
  · rw [if_neg hc]
    rfl

/-- Candidate with 1 mismatching pixel of 2 and diff-raster token 9. -/
def snapCand : ExpectedImage :=
  { width := 2, height := 1, path := [], diffPixels := 1, diffRaster := 9 }

/-- Witness for the amended C3: a single candidate with 1 mismatching
pixel out of 2 strictly improves on the initial best difference, so its
snapshot (raster token 9) is retained. -/
theorem c3_best_snapshot_amended_witness :
    ([snapCand] ≠ []) ∧
    ∃ rs stF,
      getVisualDifferencesCore 2 1 0 0 false (fun _ => []) [snapCand] =
        .ok (pickBest rs stF.bestIndex, rs, stF) ∧
      stF.bestImgDiff = some 9 := by
  refine ⟨by decide, ?_⟩
  obtain ⟨rs, stF, hcore, hsnap, _⟩ := c3_best_snapshot_amended 2 1 0 0
    false (fun _ => []) [snapCand] (by decide) (by decide) (by decide)
  refine ⟨rs, stF, hcore, ?_⟩
  rw [hsnap]
  decide

theorem compareLoop_error (w h totalPixels ignored : Nat) (tol : ℚ)
    (dEn : Bool) (dn : Nat → List Char) (c : ExpectedImage)
    (rest : List ExpectedImage) (hc : c.width ≠ w ∨ c.height ≠ h) :
    ∀ (pre : List ExpectedImage),
      (∀ c' ∈ pre, c'.width = w ∧ c'.height = h) →
      ∀ (i : Nat) (st : BestState),
        compareLoop w h totalPixels ignored tol dEn dn i st
          (pre ++ c :: rest) = .error "Image sizes do not match"
  | [], _, i, st => by
    show (if c.width ≠ w ∨ c.height ≠ h then
        Except.error "Image sizes do not match" else _) = _
    rw [if_pos hc]
  | p :: pre2, hpre, i, st => by
    have hp := hpre p (List.mem_cons_self p pre2)
    show (if p.width ≠ w ∨ p.height ≠ h then
        Except.error "Image sizes do not match" else _) = _
    rw [if_neg (by simp [hp.1, hp.2])]
    show (match compareLoop w h totalPixels ignored tol dEn dn (i + 1)
        (if p.diffPixels < st.bestDifference then
          { bestIndex := i, bestDifference := p.diffPixels,
            bestImgDiff := some p.diffRaster }
        else st) (pre2 ++ c :: rest) with
      | Except.error e => Except.error e
      | Except.ok (rs, stF) =>
        Except.ok (evalCandidate tol totalPixels ignored p.diffPixels
          p.path dEn (dn i) :: rs, stF)) = _
    rw [compareLoop_error w h totalPixels ignored tol dEn dn c rest hc pre2
      (fun c' hc' => hpre c' (List.mem_cons_of_mem p hc')) (i + 1) _]

/-- Claim C7: if any candidate raster's dimensions differ from the actual
raster's, the whole comparison aborts with the error "Image sizes do not
match" — the mismatched candidate is not skipped, no later candidate is
evaluated (the result does not depend on the candidates after the
mismatch), and no partial result is returned. -/
theorem c7_dimension_mismatch_fatal (w h ignored : Nat) (tol : ℚ)
    (dEn : Bool) (dn : Nat → List Char) (pre : List ExpectedImage)
    (c : ExpectedImage)
    (hpre : ∀ c' ∈ pre, c'.width = w ∧ c'.height = h)
    (hc : c.width ≠ w ∨ c.height ≠ h) (hh : h ≠ 0) :
    ∀ rest : List ExpectedImage,
      getVisualDifferencesCore w h ignored tol dEn dn (pre ++ c :: rest) =
        .error "Image sizes do not match" := by
  intro rest
  unfold getVisualDifferencesCore
  have hlen : ¬((pre ++ c :: rest).length = 0) := by simp
  rw [if_neg hlen, if_neg hh]
  show (match compareLoop w h (w * h) ignored tol dEn dn 0
      (initialBestState (w * h)) (pre ++ c :: rest) with
    | Except.error e => Except.error e
    | Except.ok (rs, stF) =>
      Except.ok (pickBest rs stF.bestIndex, rs, stF)) = _
  rw [compareLoop_error w h (w * h) ignored tol dEn dn c rest hc pre hpre 0
    (initialBestState (w * h))]

/-- A well-sized 1x1 candidate. -/
def okCand : ExpectedImage :=
  { width := 1, height := 1, path := [], diffPixels := 0, diffRaster := 0 }

/-- A candidate whose 2x2 dimensions mismatch a 1x1 actual raster. -/
def bigCand : ExpectedImage :=
  { width := 2, height := 2, path := [], diffPixels := 0, diffRaster := 0 }

/-- Witness for C7: a 2x2 candidate among 1x1 candidates aborts the whole
comparison with the dimension error. -/
theorem c7_dimension_mismatch_fatal_witness :
    (bigCand.width ≠ 1 ∨ bigCand.height ≠ 1) ∧
    getVisualDifferencesCore 1 1 0 0 false (fun _ => [])
        ([okCand] ++ bigCand :: [okCand]) =
      .error "Image sizes do not match" :=
  ⟨by decide,
    c7_dimension_mismatch_fatal 1 1 0 0 false (fun _ => []) [okCand]
      bigCand (by decide) (by decide) (by decide) [okCand]⟩

/-- Claim C2: for a candidate with a positive relevant-pixel count, the
recorded difference is `100 * mismatch / relevantPixels` rounded to 4
decimal places, and the candidate matches exactly when that rounded
percentage is at most the tolerance; in particular a rounded percentage
equal to the tolerance matches, and one equal to tolerance + 0.0001 does
not. -/
theorem c2_difference_rounding_tolerance (tol : ℚ) (total ignored d : Nat)
    (p : List Char) (dEn : Bool) (dname : List Char)
    (h : ignored < total) :
    (evalCandidate tol total ignored d p dEn dname).difference =
      .finite (round4 (100 * (d : ℚ) / ((total - ignored : Nat) : ℚ))) ∧
    ((evalCandidate tol total ignored d p dEn dname).matched = true ↔
      round4 (100 * (d : ℚ) / ((total - ignored : Nat) : ℚ)) ≤ tol) ∧
    (round4 (100 * (d : ℚ) / ((total - ignored : Nat) : ℚ)) = tol →
      (evalCandidate tol total ignored d p dEn dname).matched = true) ∧
    (round4 (100 * (d : ℚ) / ((total - ignored : Nat) : ℚ)) =
        tol + 1 / 10000 →
      (evalCandidate tol total ignored d p dEn dname).matched = false) := by
  have hr : ((total - ignored : Nat) : ℚ) ≠ 0 := by
    rw [Nat.cast_ne_zero]
    omega
  have hd : (evalCandidate tol total ignored d p dEn dname).difference =
      .finite (round4 (100 * (d : ℚ) / ((total - ignored : Nat) : ℚ))) := by
    show jsToFixed4
      (jsDiv (100 * (d : ℚ)) ((total - ignored : Nat) : ℚ)) = _
    unfold jsDiv
    rw [if_neg hr]
    rfl
  have hm : (evalCandidate tol total ignored d p dEn dname).matched =
      decide (round4 (100 * (d : ℚ) / ((total - ignored : Nat) : ℚ)) ≤
        tol) := by
    show jsLe (jsToFixed4
      (jsDiv (100 * (d : ℚ)) ((total - ignored : Nat) : ℚ))) tol = _
    unfold jsDiv
    rw [if_neg hr]
    rfl
  refine ⟨hd, ?_, ?_, ?_⟩
  · rw [hm]
    exact decide_eq_true_iff
  · intro he
    rw [hm, he]
    simp
  · intro he
    rw [hm, he, decide_eq_false_iff_not]
    intro hle
    linarith

/-- Witness for C2: 5 mismatching pixels out of 100 relevant with
tolerance 5 yield a rounded difference equal to the tolerance, hence a
match. -/
theorem c2_difference_rounding_tolerance_witness :
    (0 : Nat) < 100 ∧
    ((evalCandidate 5 100 0 5 [] false []).matched = true ↔
      round4 (100 * ((5 : Nat) : ℚ) / ((100 - 0 : Nat) : ℚ)) ≤ 5) :=
  ⟨by decide,
    (c2_difference_rounding_tolerance 5 100 0 5 [] false []
      (by decide)).2.1⟩

/-- Claim C10: when masking excludes every pixel (`relevantPixels = 0`),
the candidate is recorded as non-matching for every tolerance; the
computed difference is the `0/0` indeterminate `NaN` when the mismatch
count is 0 (which pixelmatch guarantees on two fully-cleared, hence
identical, rasters). -/
theorem c10_fully_masked_never_matches (tol : ℚ) (total ignored d : Nat)
    (p : List Char) (dEn : Bool) (dname : List Char)
    (h : total ≤ ignored) :
    (evalCandidate tol total ignored d p dEn dname).matched = false ∧
    (evalCandidate tol total ignored d p dEn dname).relevantPixels = 0 ∧
    (d = 0 →
      (evalCandidate tol total ignored d p dEn dname).difference =
        .nan) := by
  have hrel : total - ignored = 0 := by omega
  have hcast : ((total - ignored : Nat) : ℚ) = 0 := by
    rw [hrel]
    simp
  refine ⟨?_, hrel, ?_⟩
  · show jsLe (jsToFixed4
      (jsDiv (100 * (d : ℚ)) ((total - ignored : Nat) : ℚ))) tol = false
    rw [hcast]
    by_cases hd : d = 0
    · subst hd
      simp [jsDiv, jsToFixed4, jsLe]
    · have hd0 : 0 < (d : ℚ) := by
        rw [Nat.cast_pos]
        omega
      have hdq : 0 < 100 * (d : ℚ) := by linarith
      unfold jsDiv
      rw [if_pos rfl, if_neg (by linarith), if_pos hdq]
      rfl
  · intro hd0
    subst hd0
    show jsToFixed4
      (jsDiv (100 * ((0 : Nat) : ℚ)) ((total - ignored : Nat) : ℚ)) = _
    rw [hcast]
    simp [jsDiv, jsToFixed4]

/-- Witness for C10: a fully masked 2x2 comparison (4 of 4 pixels
excluded) yields `match = false`, zero relevant pixels and a `NaN`
difference. -/
theorem c10_fully_masked_never_matches_witness :
    (4 : Nat) ≤ 4 ∧
    (evalCandidate 50 4 4 0 [] false []).matched = false ∧
    (evalCandidate 50 4 4 0 [] false []).relevantPixels = 0 :=
  ⟨by decide,
    (c10_fully_masked_never_matches 50 4 4 0 [] false [] (by decide)).1,
    (c10_fully_masked_never_matches 50 4 4 0 [] false [] (by decide)).2.1⟩

theorem takeWhile_append_not (p : Char → Bool) :
    ∀ (as : List Char) (b : Char) (bs : List Char),
      (∀ a ∈ as, p a = true) → p b = false →
      (as ++ b :: bs).takeWhile p = as
  | [], b, bs, _, hb => by
    simp [List.takeWhile_cons, hb]
  | a :: as, b, bs, ha, hb => by
    rw [List.cons_append, List.takeWhile_cons,
      if_pos (ha a (List.mem_cons_self a as)),
      takeWhile_append_not p as b bs
        (fun x hx => ha x (List.mem_cons_of_mem a hx)) hb]

theorem afterLastTilde_append (xs ys : List Char) (hys : '~' ∉ ys) :
    afterLastTilde (xs ++ '~' :: ys) = ys := by
  unfold afterLastTilde
  rw [List.reverse_append, List.reverse_cons, List.append_assoc,
    List.singleton_append,
    takeWhile_append_not _ ys.reverse '~' xs.reverse ?_ ?_]
  · exact List.reverse_reverse ys
  · intro a ha
    rw [List.mem_reverse] at ha
    simp only [decide_eq_true_eq]
    intro hcontra
    rw [hcontra] at ha
    exact hys ha
  · simp

theorem variationOf_noTilde (s : List Char) (h : '~' ∉ s) :
    variationOf s = [] := by
  unfold variationOf
  rw [if_neg h]

theorem dropPngSuffix_append (lab : List Char) :
    dropPngSuffix (lab ++ pngSuffix) = lab := by
  have hlen : (lab ++ pngSuffix).length = lab.length + 4 := by
    rw [List.length_append]
    rfl
  have h2 : lab.length + 4 - 4 = lab.length := by omega
  unfold dropPngSuffix
  rw [if_pos ?_]
  · rw [hlen, h2]
    exact List.take_left lab pngSuffix
  · constructor
    · rw [hlen]
      omega
    · rw [hlen, h2]
      exact List.drop_left lab pngSuffix

/-- Claim C8 counterexample: the variation label is computed from the
full candidate path (`imgPath.indexOf('~')` and the regex act on the
whole path), so a canonical `<name>.png` candidate living under a
directory whose name contains `'~'` receives a non-empty label — the
path "a~b/shot.png" is the canonical file `shot.png` of directory "a~b"
yet its label is "b/shot", not the empty string. -/
theorem c8_counterexample_variation :
    variationOf (String.toList "a~b/shot.png") ≠ [] ∧
    variationOf (String.toList "a~b/shot.png") = String.toList "b/shot" ∧
    variationOf (String.toList "shot~alt.png") = String.toList "alt" :=
  ⟨by decide, by decide, by decide⟩

/-- Claim C8 (amended): for candidate paths whose directory and name stem
are free of `'~'`, the variation label is empty exactly for the
canonical `<name>.png` candidate and equals the text between the `'~'`
and the trailing `.png` for a variant `<name>~<label>.png`; a path whose
directory or stem contains `'~'` may receive a spurious non-empty
label. -/
theorem c8_variation_amended (d n lab : List Char)
    (hd : '~' ∉ d) (hn : '~' ∉ n) (hlab : '~' ∉ lab) :
    variationOf (d ++ '/' :: (n ++ pngSuffix)) = [] ∧
    variationOf (d ++ '/' :: (n ++ '~' :: (lab ++ pngSuffix))) = lab := by
  constructor
  · apply variationOf_noTilde
    intro hmem
    simp only [List.mem_append, List.mem_cons] at hmem
    rcases hmem with h | h | h
    · exact hd h
    · exact absurd h (by decide)
    · rcases h with h | h
      · exact hn h
      · exact absurd h (by decide)
  · unfold variationOf
    rw [if_pos (by simp)]
    have hassoc : d ++ '/' :: (n ++ '~' :: (lab ++ pngSuffix)) =
        (d ++ '/' :: n) ++ '~' :: (lab ++ pngSuffix) := by
      simp
    rw [hassoc, afterLastTilde_append _ _ ?_]
    · exact dropPngSuffix_append lab
    · intro hm
      simp only [List.mem_append] at hm
      rcases hm with h | h
      · exact hlab h
      · exact absurd h (by decide)

/-- Witness for the amended C8: with directory "dir", stem "shot" and
label "alt", the canonical file gets an empty label and the variant file
gets label "alt". -/
theorem c8_variation_amended_witness :
    ('~' ∉ String.toList "dir") ∧
    variationOf (String.toList "dir" ++ '/' ::
      (String.toList "shot" ++ '~' ::
        (String.toList "alt" ++ pngSuffix))) = String.toList "alt" :=
  ⟨by decide,
    (c8_variation_amended (String.toList "dir") (String.toList "shot")
      (String.toList "alt") (by decide) (by decide) (by decide)).2⟩

/-- Claim C9 counterexample: a per-invocation tolerance of 150 is only
clamped from below by `_setupTest` (`Math.max(0, parseFloat(...))`, no
upper bound), so the effective tolerance exceeds 100. -/
theorem c9_counterexample_tolerance_above_100 :
    100 < setupTolerance 0 (some 150) := by
  unfold setupTolerance
  norm_num [lt_max_iff]

/-- Claim C9 (amended): the effective tolerance is always non-negative;
the engine-wide default set by the constructor is clamped into
`[0, 100]`, and an invocation with no tolerance override therefore stays
within `[0, 100]` — but a per-invocation override is clamped only from
below and may exceed 100. -/
theorem c9_tolerance_amended (g : ℚ) (o c : Option ℚ) (hg : 0 ≤ g) :
    0 ≤ setupTolerance g o ∧
    0 ≤ constructorTolerance c ∧
    constructorTolerance c ≤ 100 ∧
    (o = none → setupTolerance g o = g) ∧
    setupTolerance (constructorTolerance c) none ≤ 100 := by
  refine ⟨?_, ?_, ?_, ?_, ?_⟩
  · cases o with
    | none => exact hg
    | some v => exact le_max_left 0 v
  · cases c with
    | none => norm_num [constructorTolerance]
    | some u => exact le_min (by norm_num) (le_max_left 0 u)
  · cases c with
    | none => norm_num [constructorTolerance]
    | some u => exact min_le_left 100 (max 0 u)
  · intro ho
    subst ho
    rfl
  · cases c with
    | none => norm_num [setupTolerance, constructorTolerance]
    | some u => exact min_le_left 100 (max 0 u)

/-- Witness for the amended C9: with default 0 and a config tolerance of
150, the stored engine-wide tolerance is within `[0, 100]` and the
per-invocation tolerance stays non-negative. -/
theorem c9_tolerance_amended_witness :
    (0 : ℚ) ≤ 0 ∧ 0 ≤ setupTolerance 0 (some 150) ∧
    constructorTolerance (some 150) ≤ 100 :=
  ⟨by decide,
    (c9_tolerance_amended 0 (some 150) (some 150) (by decide)).1,
    (c9_tolerance_amended 0 (some 150) (some 150) (by decide)).2.2.1⟩
